import Mathlib

/-
Shallow embedding of `src/graphite_pusher.hpp` (class `GraphitePusher`).

Conventions of the embedding:
* a byte is a `Nat`; every byte the C++ code stores into the
  `std::vector<char>` message is truncated with `% 256`, mirroring the
  narrowing conversion to `char` in `emplace_back`;
* a metric (`metric_t = std::tuple<std::string, int, double>`) is a path
  given as its list of UTF-8 bytes, a timestamp given as a mathematical
  integer (the C++ `int` is a 32-bit two's-complement value, serialized
  through its representative modulo 2^32), and a sample value given by the
  64-bit IEEE-754 bit pattern of the `double` (the encoder only ever
  reinterprets the 8 raw bytes of the double, so the bit pattern is the
  faithful representation and round-trips are bit-exact by construction);
* the host is little-endian: byte `t[i]` of the C++ `int` is byte i of its
  little-endian representation, and byte `s[7]` of the `double` is the most
  significant byte of its bit pattern;
* the queue `std::queue<metric_t>` is a list with its front at the head;
* socket, address-resolution and send results are oracle parameters, since
  they come from the OS.
-/

namespace GraphitePusher

/-- A sample, `metric_t = std::tuple<std::string, int, double>`: the path as
its UTF-8 bytes, the timestamp, and the bit pattern of the double value. -/
structure Metric where
  path : List Nat
  ts : Int
  sample : Nat
  deriving DecidableEq, Repr

/-- Well-formedness of a metric as handed over by the C++ types: path bytes
are `char`s, the timestamp fits a signed 32-bit `int`, the value pattern
fits 64 bits, and the path length stays below 2^24 (the regime in which the
encoder's 4-byte length prefix is decodable, see `c2_counterexample`). -/
abbrev MetricWF (m : Metric) : Prop :=
  m.path.length < 2 ^ 24 ∧ (∀ b ∈ m.path, b < 256) ∧
    -2 ^ 31 ≤ m.ts ∧ m.ts < 2 ^ 31 ∧ m.sample < 2 ^ 64

/-! ### Wire encoder, `build_message` (graphite_pusher.hpp lines 147-226) -/

/-- First pass of `build_message`: `uint64_t payload_size = 4;` then
`payload_size += 30 + path.length();` per metric. -/
def payloadSize (metrics : List Metric) : Nat :=
  metrics.foldl (fun acc m => acc + (30 + m.path.length)) 4

/-- The four header bytes: `payload_size >> 32`, `>> 16`, `>> 8`, `>> 0`,
each narrowed to a `char`. -/
def headerBytes (n : Nat) : List Nat :=
  [(n >>> 32) % 256, (n >>> 16) % 256, (n >>> 8) % 256, n % 256]

/-- The four BINUNICODE length bytes: `len >> 0`, `>> 8`, `>> 16`, `>> 32`
(the source shifts by 32, not 24), each narrowed to a `char`. -/
def encLen (len : Nat) : List Nat :=
  [len % 256, (len >>> 8) % 256, (len >>> 16) % 256, (len >>> 32) % 256]

/-- The four BININT bytes: the raw bytes `t[0] .. t[3]` of the C++ `int`,
i.e. the little-endian bytes of the timestamp's representative mod 2^32. -/
def tsBytes (ts : Int) : List Nat :=
  [(ts % (2 ^ 32 : Int)).toNat % 256, ((ts % (2 ^ 32 : Int)).toNat >>> 8) % 256,
    ((ts % (2 ^ 32 : Int)).toNat >>> 16) % 256, ((ts % (2 ^ 32 : Int)).toNat >>> 24) % 256]

/-- The eight BINFLOAT bytes: `s[7]` down to `s[0]` of the double, i.e. the
big-endian bytes of its 64-bit pattern. -/
def sampleBytes (v : Nat) : List Nat :=
  [(v >>> 56) % 256, (v >>> 48) % 256, (v >>> 40) % 256, (v >>> 32) % 256,
    (v >>> 24) % 256, (v >>> 16) % 256, (v >>> 8) % 256, v % 256]

/-- The bytes emitted for one metric inside the loop of `build_message`:
BINPUT 0, BINUNICODE (opcode, length, string bytes), BINPUT 1, BININT,
BINFLOAT, TUPLE2, BINPUT 2, TUPLE2, BINPUT 3, APPEND. -/
def encodeMetric (m : Metric) : List Nat :=
  [0x71, 0x00, 0x58] ++ encLen m.path.length ++ m.path.map (fun b => b % 256) ++
    [0x71, 0x01, 0x4a] ++ tsBytes m.ts ++ [0x47] ++ sampleBytes m.sample ++
    [0x86, 0x71, 0x02, 0x86, 0x71, 0x03, 0x61]

/-- The bytes of `build_message` that follow the 4-byte header: PROTO v2
(0x80 0x02), EMPTY LIST (0x5d), the per-metric bytes, STOP (0x2e). -/
def buildPayload (metrics : List Metric) : List Nat :=
  [0x80, 0x02, 0x5d] ++ (metrics.map encodeMetric).flatten ++ [0x2e]

/-- The full message of `build_message`: header then payload. -/
def build_message (metrics : List Metric) : List Nat :=
  headerBytes (payloadSize metrics) ++ buildPayload metrics

/-! ### Sample queue (graphite_pusher.hpp lines 62-65 and 135-145) -/

/-- `push_sample(path, ts, sample)`: appends at the back of `_queue`. -/
def push_sample (q : List Metric) (m : Metric) : List Metric := q ++ [m]

/-- The `while (not _queue.empty())` loop of `get_metrics`: moves the front
of the queue to the back of the `metrics` vector until the queue is empty. -/
def drainLoop : List Metric → List Metric → List Metric × List Metric
  | acc, [] => (acc, [])
  | acc, m :: rest => drainLoop (acc ++ [m]) rest

/-- `get_metrics()`: returns the drained batch and the queue it leaves
behind. -/
def get_metrics (q : List Metric) : List Metric × List Metric := drainLoop [] q

/-! ### Dispatcher loop body (graphite_pusher.hpp lines 104-133) -/

/-- The dispatcher-visible state: the shared queue and the local socket
descriptor of `thread()`. -/
structure DispState where
  queue : List Metric
  sock : Int
  deriving DecidableEq, Repr

/-- `push_sample` lifted to the dispatcher state: it only touches the
queue, never the socket. -/
def pushState (m : Metric) (s : DispState) : DispState :=
  { s with queue := push_sample s.queue m }

/-- One iteration of the `while (_running.load())` loop of `thread()`.
`connectResult` is what `setup_socket()` would return this cycle and
`sendOk` is whether `send` returns non-negatively.  Note the source tests
`if (send(...) < 0)` and re-enqueues the drained metrics on the *else*
branch, i.e. after a successful send, while a failed send closes the
socket and drops the drained batch. -/
def loopBody (connectResult : Int) (sendOk : Bool) (s : DispState) : DispState :=
  let sock := if s.sock < 0 then connectResult else s.sock
  if sock ≥ 0 ∧ s.queue ≠ [] then
    let drained := get_metrics s.queue
    if sendOk then
      { queue := drained.1.foldl push_sample drained.2, sock := sock }
    else
      { queue := drained.2, sock := -1 }
  else
    { queue := s.queue, sock := sock }

/-! ### Connection setup, `setup_socket` (graphite_pusher.hpp lines 68-102) -/

/-- The candidate loop of `setup_socket`: for each resolved address, create
a socket (`sockOf a = -1` models `socket()` failing); on success try
`connect` (`connOk`); break with the connected descriptor on the first
address that accepts, otherwise close, reset to -1 and continue. -/
def setupLoop {α : Type} (sockOf : α → Int) (connOk : α → Bool) : List α → Int
  | [] => -1
  | a :: rest =>
    if sockOf a = -1 then setupLoop sockOf connOk rest
    else if connOk a then sockOf a
    else setupLoop sockOf connOk rest

/-- `setup_socket()`: `none` models `getaddrinfo` failing, in which case -1
is returned without trying any candidate. -/
def setup_socket {α : Type} (sockOf : α → Int) (connOk : α → Bool) :
    Option (List α) → Int
  | none => -1
  | some addrs => setupLoop sockOf connOk addrs

/-! ### Frequency and the cycle period (graphite_pusher.hpp lines 34-36, 104-105) -/

/-- The C cast `(int)x` for a rational: truncation toward zero. -/
def cIntOfRat (x : ℚ) : ℤ := Int.tdiv x.num x.den

/-- The seconds slept each cycle: `(int)(60.0 / _frequency)`, computed once
when `thread()` starts.  The double arithmetic is modelled exactly over ℚ. -/
def threadSleepSeconds (f : ℚ) : ℤ := cIntOfRat (60 / f)

/-- The fields of the `GraphitePusher` object that the frequency claims
touch. -/
structure PusherState where
  frequency : ℚ
  queue : List Metric
  deriving DecidableEq

/-- `setFrequency(frequency)`: stores into `_frequency`. -/
def setFrequency (f : ℚ) (s : PusherState) : PusherState :=
  { s with frequency := f }

/-- The local state of a running `thread()`: the `const auto sleep` local,
computed once at entry, and the local `int sock = -1`. -/
structure ThreadCtx where
  sleep : Int
  sock : Int
  deriving DecidableEq

/-- Entry of `thread()` (lines 104-108): captures `_frequency` into the
`const` local `sleep` and initializes `sock` to -1. -/
def threadStart (s : PusherState) : ThreadCtx :=
  { sleep := threadSleepSeconds s.frequency, sock := -1 }

/-- An object together with its (optional) running dispatcher context. -/
structure World where
  ps : PusherState
  ctx : Option ThreadCtx

/-- `start()`: spawns `thread()`, whose entry snapshots the frequency. -/
def startW (w : World) : World := { w with ctx := some (threadStart w.ps) }

/-- `setFrequency` on the composed state: writes the field only; the
running thread context is untouched. -/
def setFrequencyW (f : ℚ) (w : World) : World :=
  { w with ps := setFrequency f w.ps }

/-- The sleep duration a running loop iteration uses: the captured local. -/
def cycleSleep (c : ThreadCtx) : Int := c.sleep

/-! ### Decoder, modelled from the spec

The spec (section 6) fixes the payload format; the repository has no
decoder, so the following definitions are modelled from the spec's words
in order to state the round-trip and header-consistency properties. -/

/-- Modelled from the spec: little-endian value of a byte string (used for
the 32-bit length prefix and the host-byte-order timestamp). -/
def leNat : List Nat → Nat
  | [] => 0
  | b :: rest => b + 256 * leNat rest

/-- Modelled from the spec: big-endian value of a byte string (used for
the 8-byte big-endian double pattern). -/
def beNat (bs : List Nat) : Nat := bs.foldl (fun acc b => acc * 256 + b) 0

/-- Modelled from the spec: a 4-byte little-endian signed integer. -/
def intOfLE4 (bs : List Nat) : Int :=
  if leNat bs < 2 ^ 31 then (leNat bs : Int) else (leNat bs : Int) - 2 ^ 32

/-- Modelled from the spec: consume an expected marker byte string. -/
def expectBytes (pat : List Nat) (bs : List Nat) : Option (List Nat) :=
  if bs.take pat.length = pat then some (bs.drop pat.length) else none

/-- Modelled from the spec: consume exactly `n` bytes. -/
def readBytes (n : Nat) (bs : List Nat) : Option (List Nat × List Nat) :=
  if n ≤ bs.length then some (bs.take n, bs.drop n) else none

/-- Modelled from the spec: parse the per-sample items until the stop
marker, recovering for each sample the path from its 32-bit length prefix,
the 4-byte host-byte-order timestamp and the 8-byte big-endian double
pattern.  `fuel` bounds the recursion; one unit is spent per sample. -/
def decodeItems : Nat → List Nat → Option (List Metric)
  | 0, _ => none
  | fuel + 1, bytes =>
    if bytes = [0x2e] then some []
    else do
      let r1 ← expectBytes [0x71, 0x00, 0x58] bytes
      let (lb, r2) ← readBytes 4 r1
      let (p, r3) ← readBytes (leNat lb) r2
      let r4 ← expectBytes [0x71, 0x01, 0x4a] r3
      let (tb, r5) ← readBytes 4 r4
      let r6 ← expectBytes [0x47] r5
      let (sb, r7) ← readBytes 8 r6
      let r8 ← expectBytes [0x86, 0x71, 0x02, 0x86, 0x71, 0x03, 0x61] r7
      let tl ← decodeItems fuel r8
      pure (⟨p, intOfLE4 tb, beNat sb⟩ :: tl)

/-- Modelled from the spec: decode a payload — protocol marker, empty-list
opcode, the samples, stop marker. -/
def decodePayload (bytes : List Nat) : Option (List Metric) :=
  match bytes with
  | a :: b :: c :: rest =>
    if a = 0x80 ∧ b = 0x02 ∧ c = 0x5d then decodeItems (rest.length + 1) rest else none
  | _ => none

/-- Modelled from the spec: read the emitted 4-byte header back under the
same bit-slice placement, bits [32-39][16-23][8-15][0-7]. -/
def decodeHeader (bs : List Nat) : Nat :=
  match bs with
  | [h0, h1, h2, h3] => h0 * 2 ^ 32 + h1 * 2 ^ 16 + h2 * 2 ^ 8 + h3
  | _ => 0

/-! ### Helper lemmas -/

theorem payloadSize_foldl (ms : List Metric) (a : Nat) :
    ms.foldl (fun acc m => acc + (30 + m.path.length)) a
      = a + (ms.map (fun m => 30 + m.path.length)).sum := by
  induction ms generalizing a with
  | nil => simp
  | cons m tl ih => simp [ih]; ring

theorem payloadSize_eq (ms : List Metric) :
    payloadSize ms = 4 + (ms.map (fun m => 30 + m.path.length)).sum :=
  payloadSize_foldl ms 4

theorem encodeMetric_length (m : Metric) :
    (encodeMetric m).length = 30 + m.path.length := by
  simp [encodeMetric, encLen, tsBytes, sampleBytes]
  omega

theorem encFlatten_length (ms : List Metric) :
    ((ms.map encodeMetric).flatten).length
      = (ms.map (fun m => 30 + m.path.length)).sum := by
  induction ms with
  | nil => rfl
  | cons m tl ih => simp [ih, encodeMetric_length]

theorem buildPayload_length (ms : List Metric) :
    (buildPayload ms).length = payloadSize ms := by
  simp only [buildPayload, List.length_append, List.length_cons, List.length_nil,
    encFlatten_length, payloadSize_eq]
  omega

theorem drainLoop_eq (q acc : List Metric) : drainLoop acc q = (acc ++ q, []) := by
  induction q generalizing acc with
  | nil => simp [drainLoop]
  | cons m rest ih => simp [drainLoop, ih]

theorem foldl_push (ms q : List Metric) : ms.foldl push_sample q = q ++ ms := by
  induction ms generalizing q with
  | nil => simp
  | cons m rest ih => simp [push_sample, ih]

/-! ### Claims -/

/-- Claim C4: the payload length computed by the encoder's first pass
equals the number of payload bytes emitted by its second pass, and the
whole message is exactly 4 header bytes plus the precomputed payload size,
for every input batch (the `assert` in `build_message` always holds). -/
theorem c4_encoder_size_invariant (ms : List Metric) :
    (buildPayload ms).length = payloadSize ms ∧
      (build_message ms).length = 4 + payloadSize ms := by
  refine ⟨buildPayload_length ms, ?_⟩
  simp [build_message, headerBytes, buildPayload_length]
  omega

/-- Claim C10: the encoded message of a batch is exactly
8 + sum over samples of (30 + path length) bytes long. -/
theorem c10_message_length (ms : List Metric) :
    (build_message ms).length = 8 + (ms.map (fun m => 30 + m.path.length)).sum := by
  have h := buildPayload_length ms
  rw [payloadSize_eq] at h
  simp [build_message, headerBytes, h]
  omega

/-- Claim C5: pushing any samples in order onto an arbitrary queue and then
draining once returns all queued samples in FIFO submission order and
leaves the queue empty. -/
theorem c5_drain_fifo (q ms : List Metric) :
    get_metrics (ms.foldl push_sample q) = (q ++ ms, []) := by
  simp [get_metrics, foldl_push, drainLoop_eq]

/-- Claim C7: `push_sample` is total, always appends the sample to the
queue, and is independent of the connection state (the socket field is
untouched whatever its value). -/
theorem c7_submit_total (s : DispState) (m : Metric) :
    (pushState m s).queue = s.queue ++ [m] ∧ (pushState m s).sock = s.sock :=
  ⟨rfl, rfl⟩

/-- Claim C9: the running dispatcher's sleep is captured from the frequency
at thread start; a later `setFrequency` changes the stored field but not
the captured sleep of the already-running loop. -/
theorem c9_frequency_frame (w : World) (f : ℚ) :
    (setFrequencyW f (startW w)).ctx = (startW w).ctx ∧
      (startW w).ctx = some { sleep := threadSleepSeconds w.ps.frequency, sock := -1 } ∧
      (setFrequencyW f (startW w)).ps.frequency = f :=
  ⟨rfl, rfl, rfl⟩

/-- Claim C1 (divergence witness): with a connected socket and a non-empty
queue, a failed send leaves the queue empty (the batch is dropped, not
re-enqueued) and closes the socket, while a successful send re-enqueues
the whole batch instead of discarding it. -/
theorem c1_requeue_inverted :
    (loopBody 0 false { queue := [⟨[97], 0, 0⟩], sock := 0 }).queue = [] ∧
      (loopBody 0 false { queue := [⟨[97], 0, 0⟩], sock := 0 }).sock = -1 ∧
      (loopBody 0 true { queue := [⟨[97], 0, 0⟩], sock := 0 }).queue = [⟨[97], 0, 0⟩] := by
  decide

theorem cIntOfRat_eq_floor (x : ℚ) (hx : 0 ≤ x) : cIntOfRat x = ⌊x⌋ := by
  rw [Rat.floor_def, cIntOfRat, Int.tdiv_eq_ediv (Rat.num_nonneg.mpr hx) (by positivity)]

/-- Claim C6 (amended): for every frequency f > 0 such that 60 / f is a
whole number of seconds, the dispatcher's inter-cycle sleep equals 60 / f
time units (in general it is 60 / f truncated to whole seconds). -/
theorem c6_cycle_length (f : ℚ) (hf : 0 < f) (hden : ((60 : ℚ) / f).den = 1) :
    (threadSleepSeconds f : ℚ) = 60 / f := by
  have h := Rat.coe_int_num_of_den_eq_one hden
  rw [threadSleepSeconds, cIntOfRat, hden]
  push_cast
  rw [Int.tdiv_one]
  exact h

/-- Witness for `c6_cycle_length` at f = 6: the hypotheses hold and each
cycle sleeps exactly 60 / 6 = 10 seconds. -/
theorem c6_cycle_witness :
    (0 : ℚ) < 6 ∧ ((60 : ℚ) / 6).den = 1 ∧ (threadSleepSeconds 6 : ℚ) = 60 / 6 := by
  have hden : ((60 : ℚ) / 6).den = 1 := by
    rw [show (60 : ℚ) / 6 = 10 by norm_num]
    rfl
  exact ⟨by norm_num, hden, c6_cycle_length 6 (by norm_num) hden⟩

/-- Claim C6 is false as stated: at frequency f = 8 the loop sleeps
`(int)(60.0 / 8.0)` = 7 seconds, not 60 / 8 = 7.5 time units. -/
theorem c6_counterexample : (threadSleepSeconds 8 : ℚ) ≠ 60 / 8 := by
  have h1 : threadSleepSeconds 8 = 7 := by
    rw [threadSleepSeconds, cIntOfRat_eq_floor _ (by norm_num), Int.floor_eq_iff]
    norm_num
  rw [h1]
  norm_num

theorem setupLoop_first {α : Type} (sockOf : α → Int) (connOk : α → Bool)
    (addrs : List α) (hsock : ∀ a ∈ addrs, sockOf a ≠ -1) :
    setupLoop sockOf connOk addrs = (addrs.find? connOk).elim (-1) sockOf := by
  induction addrs with
  | nil => rfl
  | cons a rest ih =>
    have ha : sockOf a ≠ -1 := hsock a (by simp)
    rw [setupLoop, if_neg ha]
    by_cases h : connOk a
    · simp [List.find?_cons_of_pos _ h, h]
    · rw [if_neg (by simp [h]), List.find?_cons_of_neg _ (by simp [h])]
      exact ih fun x hx => hsock x (by simp [hx])

/-- Claim C8: for every non-empty resolved candidate list on which socket
creation succeeds, the connect loop tries candidates in list order and
returns the descriptor of the first address that accepts a connection; if
no candidate accepts, it returns -1 (no connection, still disconnected). -/
theorem c8_first_accepting {α : Type} (sockOf : α → Int) (connOk : α → Bool)
    (addrs : List α) (hne : addrs ≠ []) (hsock : ∀ a ∈ addrs, sockOf a ≠ -1) :
    setupLoop sockOf connOk addrs = (addrs.find? connOk).elim (-1) sockOf :=
  setupLoop_first sockOf connOk addrs hsock

/-- Witness for `c8_first_accepting` on candidates [1, 2, 3] where only
address 2 accepts: the loop returns that address's descriptor 12. -/
theorem c8_witness :
    ([1, 2, 3] : List Nat) ≠ [] ∧ (∀ a ∈ ([1, 2, 3] : List Nat), (a : Int) + 10 ≠ -1) ∧
      setupLoop (fun a : Nat => (a : Int) + 10) (fun a => a == 2) [1, 2, 3]
        = ((([1, 2, 3] : List Nat).find? (fun a => a == 2)).elim (-1) (fun a : Nat => (a : Int) + 10)) :=
  ⟨by decide, by decide,
    c8_first_accepting (fun a : Nat => (a : Int) + 10) (fun a => a == 2) [1, 2, 3]
      (by decide) (by decide)⟩

theorem decodeHeader_headerBytes (n : Nat) (h : n < 2 ^ 24) :
    decodeHeader (headerBytes n) = n := by
  simp [decodeHeader, headerBytes, Nat.shiftRight_eq_div_pow]
  omega

/-- Claim C3 (amended): whenever the payload is shorter than 2^24 bytes,
the length read back from the emitted 4-byte header under the same
bit-slice placement equals the number of payload bytes after the header. -/
theorem c3_header_consistent (ms : List Metric) (h : payloadSize ms < 2 ^ 24) :
    decodeHeader (headerBytes (payloadSize ms)) = (buildPayload ms).length := by
  rw [buildPayload_length, decodeHeader_headerBytes _ h]

/-- Witness for `c3_header_consistent` on the empty batch: the payload is
4 bytes (preamble and stop) and the header reads back as 4. -/
theorem c3_header_witness :
    payloadSize [] < 2 ^ 24 ∧
      decodeHeader (headerBytes (payloadSize [])) = (buildPayload []).length :=
  ⟨by decide, c3_header_consistent [] (by decide)⟩

theorem c3_general (p : List Nat) (hlen : p.length = 2 ^ 24 - 34) :
    decodeHeader (headerBytes (payloadSize [⟨p, 0, 0⟩])) ≠
      (buildPayload [⟨p, 0, 0⟩]).length := by
  have hp : payloadSize [(⟨p, 0, 0⟩ : Metric)] = 2 ^ 24 := by
    rw [payloadSize_eq]
    simp only [List.map_cons, List.map_nil, List.sum_cons, List.sum_nil]
    rw [hlen]
    norm_num
  rw [buildPayload_length, hp]
  decide

/-- Claim C3 is false as stated: for a single metric whose path is
2^24 - 34 bytes long the payload is exactly 2^24 bytes, bits 24-31 of the
length are lost by the bit-slice header, and the header reads back as 0. -/
theorem c3_counterexample :
    decodeHeader (headerBytes (payloadSize [⟨List.replicate (2 ^ 24 - 34) 97, 0, 0⟩])) ≠
      (buildPayload [⟨List.replicate (2 ^ 24 - 34) 97, 0, 0⟩]).length :=
  c3_general (List.replicate (2 ^ 24 - 34) 97) (List.length_replicate _ _)

theorem map_mod_id (p : List Nat) (h : ∀ b ∈ p, b < 256) :
    p.map (fun b => b % 256) = p := by
  induction p with
  | nil => rfl
  | cons b t ih => simp_all [Nat.mod_eq_of_lt]

theorem expectBytes_append (pat rest : List Nat) :
    expectBytes pat (pat ++ rest) = some rest := by
  simp [expectBytes, List.take_left' rfl, List.drop_left' rfl]

theorem readBytes_append {n : Nat} (l₁ l₂ : List Nat) (h : l₁.length = n) :
    readBytes n (l₁ ++ l₂) = some (l₁, l₂) := by
  simp [readBytes, List.take_left' h, List.drop_left' h]
  omega

theorem readBytes_zero (bs : List Nat) : readBytes 0 bs = some ([], bs) := by
  simp [readBytes]

theorem encLen_length (L : Nat) : (encLen L).length = 4 := rfl

theorem tsBytes_length (t : Int) : (tsBytes t).length = 4 := rfl

theorem sampleBytes_length (v : Nat) : (sampleBytes v).length = 8 := rfl

theorem readBytes_encLen (L : Nat) (l₂ : List Nat) :
    readBytes 4 (encLen L ++ l₂) = some (encLen L, l₂) :=
  readBytes_append _ _ (encLen_length L)

theorem readBytes_self (p l₂ : List Nat) :
    readBytes p.length (p ++ l₂) = some (p, l₂) :=
  readBytes_append _ _ rfl

theorem readBytes_tsBytes (t : Int) (l₂ : List Nat) :
    readBytes 4 (tsBytes t ++ l₂) = some (tsBytes t, l₂) :=
  readBytes_append _ _ (tsBytes_length t)

theorem readBytes_sampleBytes (v : Nat) (l₂ : List Nat) :
    readBytes 8 (sampleBytes v ++ l₂) = some (sampleBytes v, l₂) :=
  readBytes_append _ _ (sampleBytes_length v)

theorem leNat_encLen (L : Nat) (h : L < 2 ^ 24) : leNat (encLen L) = L := by
  simp [leNat, encLen, Nat.shiftRight_eq_div_pow]
  omega

theorem leNat_tsBytes (t : Int) : leNat (tsBytes t) = (t % (2 ^ 32 : Int)).toNat := by
  simp [leNat, tsBytes, Nat.shiftRight_eq_div_pow]
  omega

theorem intOfLE4_tsBytes (t : Int) (h1 : -2 ^ 31 ≤ t) (h2 : t < 2 ^ 31) :
    intOfLE4 (tsBytes t) = t := by
  rw [intOfLE4, leNat_tsBytes]
  split <;> omega

theorem beNat_sampleBytes (v : Nat) (h : v < 2 ^ 64) : beNat (sampleBytes v) = v := by
  simp [beNat, sampleBytes, List.foldl_cons, List.foldl_nil, Nat.shiftRight_eq_div_pow]
  omega

theorem decodeItems_cons (m : Metric) (rest : List Nat) (k : Nat) (hWF : MetricWF m) :
    decodeItems (k + 1) (encodeMetric m ++ rest)
      = (decodeItems k rest).map (fun tl => m :: tl) := by
  obtain ⟨p, t, v⟩ := m
  obtain ⟨hlen, hbytes, ht1, ht2, hv⟩ := hWF
  have hshape : encodeMetric ⟨p, t, v⟩ ++ rest
      = [0x71, 0x00, 0x58] ++ (encLen p.length ++ (p ++ ([0x71, 0x01, 0x4a] ++
          (tsBytes t ++ ([0x47] ++ (sampleBytes v ++
            ([0x86, 0x71, 0x02, 0x86, 0x71, 0x03, 0x61] ++ rest))))))) := by
    rw [encodeMetric]
    simp only
    rw [map_mod_id p hbytes]
    simp [List.append_assoc]
  rw [hshape]
  simp only [decodeItems]
  rw [if_neg (by simp)]
  simp only [Option.bind_eq_bind, Option.pure_def, expectBytes_append, Option.some_bind,
    readBytes_encLen, leNat_encLen p.length hlen, readBytes_self, readBytes_tsBytes,
    readBytes_sampleBytes, intOfLE4_tsBytes t ht1 ht2, beNat_sampleBytes v hv]
  cases decodeItems k rest <;> rfl

theorem decodeItems_encode (ms : List Metric) (hwf : ∀ m ∈ ms, MetricWF m)
    (fuel : Nat) (hfuel : ms.length < fuel) :
    decodeItems fuel ((ms.map encodeMetric).flatten ++ [0x2e]) = some ms := by
  induction ms generalizing fuel with
  | nil =>
    obtain ⟨k, rfl⟩ : ∃ k, fuel = k + 1 := ⟨fuel - 1, by omega⟩
    simp [decodeItems]
  | cons m tl ih =>
    obtain ⟨k, rfl⟩ : ∃ k, fuel = k + 1 := ⟨fuel - 1, by omega⟩
    have hstep : (((m :: tl).map encodeMetric).flatten ++ [0x2e])
        = encodeMetric m ++ ((tl.map encodeMetric).flatten ++ [0x2e]) := by
      simp
    rw [hstep, decodeItems_cons m _ k (hwf m (by simp)),
      ih (fun x hx => hwf x (by simp [hx])) k (by simp at hfuel; omega)]
    rfl

theorem encFlatten_ge (ms : List Metric) :
    ms.length ≤ ((ms.map encodeMetric).flatten).length := by
  induction ms with
  | nil => simp
  | cons m tl ih =>
    simp only [List.map_cons, List.flatten_cons, List.length_append, List.length_cons]
    have := encodeMetric_length m
    omega

/-- Claim C2 (amended): for every ordered sequence of samples whose paths
are shorter than 2^24 bytes (with arbitrary byte content, including the
empty path, any signed 32-bit timestamp and any 64-bit double pattern),
decoding the encoder's payload per the section-6 wire format recovers
exactly the same ordered sequence of (path, timestamp, value) triples,
with the path read from its 32-bit length prefix and the double recovered
bit-exactly from its big-endian 8 bytes. -/
theorem c2_roundtrip (ms : List Metric) (hwf : ∀ m ∈ ms, MetricWF m) :
    decodePayload (buildPayload ms) = some ms := by
  have hsh : buildPayload ms
      = 0x80 :: 0x02 :: 0x5d :: ((ms.map encodeMetric).flatten ++ [0x2e]) := by
    simp [buildPayload]
  rw [hsh]
  simp only [decodePayload]
  rw [if_pos (by simp)]
  refine decodeItems_encode ms hwf _ ?_
  have h1 := encFlatten_ge ms
  simp only [List.length_append, List.length_cons, List.length_nil]
  omega

/-- Witness for `c2_roundtrip` on the two-sample batch
[("a.b", 100, bits of 1.0), ("", -1, bits of 0.0)]: well-formed, and the
payload decodes back to exactly that batch. -/
theorem c2_roundtrip_witness :
    (∀ m ∈ [(⟨[97, 46, 98], 100, 4607182418800017408⟩ : Metric), ⟨[], -1, 0⟩], MetricWF m) ∧
      decodePayload (buildPayload
          [(⟨[97, 46, 98], 100, 4607182418800017408⟩ : Metric), ⟨[], -1, 0⟩])
        = some [⟨[97, 46, 98], 100, 4607182418800017408⟩, ⟨[], -1, 0⟩] :=
  ⟨by decide, c2_roundtrip _ (by decide)⟩

theorem decodeItems_badLen (k : Nat) (p : List Nat) (hlen : p.length = 2 ^ 24)
    (htake : p.take 3 = [97, 97, 97]) :
    decodeItems (k + 1) ([0x71, 0x00, 0x58] ++ ([0, 0, 0, 0] ++
        (p.map (fun b => b % 256) ++ ([0x71, 0x01, 0x4a] ++ (tsBytes 0 ++ ([0x47] ++
          (sampleBytes 0 ++ ([0x86, 0x71, 0x02, 0x86, 0x71, 0x03, 0x61] ++ [0x2e]))))))))
      = none := by
  have hexp : expectBytes [0x71, 0x01, 0x4a] (p.map (fun b => b % 256) ++
      ([0x71, 0x01, 0x4a] ++ (tsBytes 0 ++ ([0x47] ++ (sampleBytes 0 ++
        ([0x86, 0x71, 0x02, 0x86, 0x71, 0x03, 0x61] ++ [0x2e])))))) = none := by
    have h3 : (p.map (fun b => b % 256) ++
        ([0x71, 0x01, 0x4a] ++ (tsBytes 0 ++ ([0x47] ++ (sampleBytes 0 ++
          ([0x86, 0x71, 0x02, 0x86, 0x71, 0x03, 0x61] ++ [0x2e])))))).take 3
        = [97, 97, 97] := by
      rw [List.take_append_of_le_length (by rw [List.length_map, hlen]; norm_num)]
      rw [← List.map_take, htake]
      decide
    have hlen3 : ([0x71, 0x01, 0x4a] : List Nat).length = 3 := rfl
    simp only [expectBytes, hlen3, h3]
    rw [if_neg (by decide)]
  have hrb : ∀ l₂ : List Nat, readBytes 4 ([0, 0, 0, 0] ++ l₂) = some ([0, 0, 0, 0], l₂) :=
    fun l₂ => readBytes_append [0, 0, 0, 0] l₂ rfl
  simp only [decodeItems]
  rw [if_neg (by simp)]
  simp only [Option.bind_eq_bind, Option.pure_def, expectBytes_append, Option.some_bind, hrb,
    show leNat [0, 0, 0, 0] = 0 from rfl, readBytes_zero, hexp, Option.none_bind]

theorem c2_general (p : List Nat) (hlen : p.length = 2 ^ 24)
    (htake : p.take 3 = [97, 97, 97]) :
    decodePayload (buildPayload [⟨p, 0, 0⟩]) = none := by
  have hencLen : encLen p.length = [0, 0, 0, 0] := by
    rw [hlen]
    decide
  have hsh : buildPayload [(⟨p, 0, 0⟩ : Metric)]
      = 0x80 :: 0x02 :: 0x5d :: ([0x71, 0x00, 0x58] ++ ([0, 0, 0, 0] ++
          (p.map (fun b => b % 256) ++ ([0x71, 0x01, 0x4a] ++ (tsBytes 0 ++ ([0x47] ++
            (sampleBytes 0 ++ ([0x86, 0x71, 0x02, 0x86, 0x71, 0x03, 0x61] ++ [0x2e])))))))) := by
    rw [buildPayload]
    simp only [List.map_cons, List.map_nil, List.flatten_cons, List.flatten_nil]
    rw [encodeMetric]
    simp only
    rw [hencLen]
    simp [List.append_assoc]
  rw [hsh]
  simp only [decodePayload]
  rw [if_pos (by simp)]
  exact decodeItems_badLen _ p hlen htake

/-- Claim C2 is false as stated: a single sample whose path is exactly 2^24
bytes of 0x61 encodes to a payload whose 4-byte length prefix reads back as
0 (the `len >> 32` slice drops bits 24-31), so decoding fails instead of
returning the sample. -/
theorem c2_counterexample :
    decodePayload (buildPayload [⟨List.replicate (2 ^ 24) 97, 0, 0⟩]) ≠
      some [⟨List.replicate (2 ^ 24) 97, 0, 0⟩] := by
  rw [c2_general (List.replicate (2 ^ 24) 97) (List.length_replicate _ _)
    (by rw [List.take_replicate]; norm_num; decide)]
  exact fun hc => Option.noConfusion hc

end GraphitePusher
